import Mathlib

/-!
# Inventory blocking core: shallow embedding and verification

This file embeds the reservation core of `src/core/itemManager.ts`
(a TypeScript/PostgreSQL inventory service) into Lean and proves or
refutes the specified properties of its three engine operations:

* `temporarilyBlockInventory` — create a temporary block
  (`createTemporaryBlock` in the specification),
* `permanentlyBlockInventory` — promote a block to permanent
  (`promoteToPermanent` in the specification),
* `cleanupExpiredBlocks` — reclaim expired temporary blocks
  (`reclaimExpired` in the specification).

The store (the `items` and `block_inventory` tables of `db/init.sql`)
is modelled as lists of rows.  `id` columns are `SERIAL PRIMARY KEY`,
hence `Nat` with uniqueness assumed where a proof needs it; `quantity`
columns are SQL `INTEGER`, hence `Int`; timestamps are instants in
milliseconds, hence `Nat` (`Option Nat` for the nullable `expires_at`).
The clock reads of each handler (`new Date()` in the source) become explicit
instant parameters: one for block creation, one for promotion, and two
for the cleanup sweep, whose source reads the clock once for its
`SELECT` and once more for its `DELETE`.
-/

namespace Inventory

/-- A row of the `items` table: `id SERIAL PRIMARY KEY`,
`quantity INTEGER NOT NULL`.  The descriptive columns (name, price,
category, timestamps) play no role in the blocking core and are
omitted. -/
structure Item where
  id : Nat
  quantity : Int
  deriving Repr, DecidableEq

/-- A row of the `block_inventory` table: `id SERIAL PRIMARY KEY`,
`item_id INTEGER NOT NULL REFERENCES items(id)`,
`quantity INTEGER NOT NULL`, `is_permanent BOOLEAN`,
`expires_at TIMESTAMP` (nullable). -/
structure Block where
  id : Nat
  itemId : Nat
  quantity : Int
  isPermanent : Bool
  expiresAt : Option Nat
  deriving Repr, DecidableEq

/-- The persistent store: the two tables plus the next value of the
`block_inventory` id sequence (SERIAL). -/
structure StoreState where
  items : List Item
  blocks : List Block
  nextBlockId : Nat
  deriving Repr, DecidableEq

/-- `SELECT * FROM items WHERE id = $1` (first matching row). -/
def findItem (s : StoreState) (iid : Nat) : Option Item :=
  s.items.find? (fun it => it.id == iid)

/-- `SELECT * FROM block_inventory WHERE id = $1` (first matching row). -/
def findBlock (s : StoreState) (bid : Nat) : Option Block :=
  s.blocks.find? (fun b => b.id == bid)

/-- Error responses of `temporarilyBlockInventory`.
`validationError` is the 400 "ItemId and positive quantity are
required"; `itemNotFound` is the 404 "Item not found";
`insufficientQuantity` is the 400 "Insufficient available quantity",
which reports the available and requested amounts. -/
inductive BlockError where
  | validationError
  | itemNotFound
  | insufficientQuantity (available requested : Int)
  deriving Repr, DecidableEq

/-- The 201 success payload of `temporarilyBlockInventory`. -/
structure BlockSuccess where
  blockId : Nat
  quantityBlocked : Int
  remainingQuantity : Int
  expiresAt : Nat
  deriving Repr, DecidableEq

/-- `expiresAt.setHours(expiresAt.getHours() + 1)`: one hour, in
milliseconds. -/
def hourMillis : Nat := 3600000

/-- The row update performed by
`UPDATE items SET quantity = quantity - $1 WHERE id = $2`. -/
def decItem (iid : Nat) (q : Int) (it : Item) : Item :=
  if it.id == iid then { it with quantity := it.quantity - q } else it

/-- `temporarilyBlockInventory(req, res)` of `src/core/itemManager.ts`.
`itemId` and `quantity` are the request-body fields (absent = `none`;
the JavaScript guard `!itemId` also fires on the falsy value `0`);
`now` is the single `new Date()` of the handler.  Returns the response
together with the post-transaction store. -/
def temporarilyBlockInventory (s : StoreState) (itemId : Option Nat)
    (quantity : Option Int) (now : Nat) :
    Except BlockError BlockSuccess × StoreState :=
  match itemId, quantity with
  | none, _ => (.error .validationError, s)
  | some _, none => (.error .validationError, s)
  | some iid, some q =>
    if iid = 0 ∨ q ≤ 0 then (.error .validationError, s)
    else
      match findItem s iid with
      | none => (.error .itemNotFound, s)
      | some item =>
        if item.quantity < q then
          (.error (.insufficientQuantity item.quantity q), s)
        else
          let expiresAt := now + hourMillis
          (.ok ⟨s.nextBlockId, q, item.quantity - q, expiresAt⟩,
           { items := s.items.map (decItem iid q),
             blocks := s.blocks ++ [⟨s.nextBlockId, iid, q, false, some expiresAt⟩],
             nextBlockId := s.nextBlockId + 1 })

/-- Error responses of `permanentlyBlockInventory`.
`validationError` is the 400 "BlockId is required"; the other three
form the error taxonomy of the promote contract. -/
inductive PromoteError where
  | validationError
  | blockNotFound
  | alreadyPermanent
  | blockExpired
  deriving Repr, DecidableEq

/-- The success payload of `permanentlyBlockInventory`. -/
structure PromoteSuccess where
  blockId : Nat
  quantity : Int
  itemId : Nat
  deriving Repr, DecidableEq

/-- The row update performed by `UPDATE block_inventory SET
is_permanent = TRUE, expires_at = NULL WHERE id = $1`. -/
def promoteBlock (bid : Nat) (b : Block) : Block :=
  if b.id == bid then { b with isPermanent := true, expiresAt := none } else b

/-- `permanentlyBlockInventory(req, res)` of `src/core/itemManager.ts`.
`blockId` is the request-body field (absent = `none`; the guard
`!blockId` also fires on the falsy value `0`); `now` is the `new Date()`
of the handler, used by the expiry check `expires_at <= currentTime`. -/
def permanentlyBlockInventory (s : StoreState) (blockId : Option Nat)
    (now : Nat) : Except PromoteError PromoteSuccess × StoreState :=
  match blockId with
  | none => (.error .validationError, s)
  | some bid =>
    if bid = 0 then (.error .validationError, s)
    else
      match findBlock s bid with
      | none => (.error .blockNotFound, s)
      | some block =>
        if block.isPermanent then (.error .alreadyPermanent, s)
        else
          match block.expiresAt with
          | some e =>
            if e ≤ now then (.error .blockExpired, s)
            else
              (.ok ⟨bid, block.quantity, block.itemId⟩,
               { s with blocks := s.blocks.map (promoteBlock bid) })
          | none =>
            (.ok ⟨bid, block.quantity, block.itemId⟩,
             { s with blocks := s.blocks.map (promoteBlock bid) })

/-- The `WHERE is_permanent = FALSE AND expires_at <= $1` condition
(SQL `NULL <= t` is not true, so a null `expires_at` never matches). -/
def isExpiredTemp (t : Nat) (b : Block) : Bool :=
  !b.isPermanent &&
    match b.expiresAt with
    | some e => e ≤ t
    | none => false

/-- Whether `JOIN items i ON bi.item_id = i.id` finds a row for this
`item_id` (item ids are a primary key, so the join matches at most one
row and acts as a filter). -/
def itemExists (s : StoreState) (iid : Nat) : Bool :=
  (findItem s iid).isSome

/-- The cleanup query `SELECT bi.* FROM block_inventory bi JOIN
items i ON bi.item_id = i.id WHERE bi.is_permanent = FALSE AND
bi.expires_at <= $1`, at instant `t`. -/
def selectExpiredJoined (s : StoreState) (t : Nat) : List Block :=
  s.blocks.filter (fun b => isExpiredTemp t b && itemExists s b.itemId)

/-- One iteration of the restore loop: `UPDATE items SET quantity =
quantity + $1 WHERE id = $2` for one expired block. -/
def restoreQuantity (items : List Item) (b : Block) : List Item :=
  items.map (fun it =>
    if it.id == b.itemId then { it with quantity := it.quantity + b.quantity }
    else it)

/-- `cleanupExpiredBlocks()` of `src/core/itemManager.ts`.  The source
reads the clock twice: `tSel` is the `new Date()` passed to the
`SELECT` that picks the blocks to restore, and `tDel` is the second
`new Date()` passed to the `DELETE`; in a real run `tSel ≤ tDel`.
Both the restore loop and the `DELETE` are guarded by
`expiredBlocks.rows.length > 0`.  Returns
`expiredBlocks.rows.length` and the post-transaction store. -/
def cleanupExpiredBlocks (s : StoreState) (tSel tDel : Nat) :
    Nat × StoreState :=
  let expired := selectExpiredJoined s tSel
  if expired.length > 0 then
    (expired.length,
     { s with
       items := expired.foldl restoreQuantity s.items,
       blocks := s.blocks.filter (fun b => !isExpiredTemp tDel b) })
  else (0, s)

/-- Sum of the quantities of the blocks currently held against item
`iid` (its active, non-reclaimed blocks). -/
def activeBlockSum (s : StoreState) (iid : Nat) : Int :=
  (s.blocks.filter (fun b => b.itemId == iid)).foldl
    (fun acc b => acc + b.quantity) 0

/-- The ledger quantity of an item plus the quantities of its active
blocks: the quantity the specification invariant fixes at `totalStock`. -/
def itemTotal (s : StoreState) (iid : Nat) : Int :=
  (match findItem s iid with
   | some it => it.quantity
   | none => 0) + activeBlockSum s iid

/-- The quantity of the item row with id `iid`, or 0 when the row is
absent. -/
def qtyOf (items : List Item) (iid : Nat) : Int :=
  match items.find? (fun it => it.id == iid) with
  | some it => it.quantity
  | none => 0

/-- Sum of the quantities of the blocks of a list that reference item
`iid`. -/
def blockSumFor (bs : List Block) (iid : Nat) : Int :=
  ((bs.filter (fun b => b.itemId == iid)).map Block.quantity).sum

/-- One invocation of one of the three engine operations, with its
request fields and its clock reads. -/
inductive EngineOp where
  | createTemp (itemId : Option Nat) (quantity : Option Int) (now : Nat)
  | promote (blockId : Option Nat) (now : Nat)
  | reclaim (tSel tDel : Nat)
  deriving Repr, DecidableEq

/-- The store reached after one engine operation. -/
def applyOp (s : StoreState) : EngineOp → StoreState
  | .createTemp itemId quantity now =>
    (temporarilyBlockInventory s itemId quantity now).2
  | .promote blockId now => (permanentlyBlockInventory s blockId now).2
  | .reclaim tSel tDel => (cleanupExpiredBlocks s tSel tDel).2

/-- A store with one fully blocked item (quantity 0, total stock 12)
and two temporary blocks: block 1 (5 units) expiring at instant 3 and
block 2 (7 units) expiring at instant 8.  Exercises a cleanup sweep
whose `SELECT` clock read falls at instant 5 and whose `DELETE` clock
read falls at instant 10, so that block 2 expires between the two. -/
def bugState : StoreState :=
  { items := [⟨1, 0⟩],
    blocks := [⟨1, 1, 5, false, some 3⟩, ⟨2, 1, 7, false, some 8⟩],
    nextBlockId := 3 }

/-- The block of `bugState` that expires between the two clock reads
of the cleanup sweep. -/
def bugBlockLate : Block := ⟨2, 1, 7, false, some 8⟩

/-! ## Helper lemmas -/

/-- `find?` commutes with mapping a function that leaves the predicate
unchanged (such as a row update that keeps the key column). -/
theorem find_map_of_pred_const {α : Type} (f : α → α) (p : α → Bool)
    (hf : ∀ x, p (f x) = p x) :
    ∀ l : List α, (l.map f).find? p = (l.find? p).map f := by
  intro l
  induction l with
  | nil => rfl
  | cons a t ih =>
    by_cases h : p a = true
    · rw [List.map_cons, List.find?_cons_of_pos _ (by rw [hf]; exact h),
        List.find?_cons_of_pos _ h]
      rfl
    · rw [List.map_cons, List.find?_cons_of_neg _ (by rw [hf]; exact h),
        List.find?_cons_of_neg _ h, ih]

/-- In a list whose keys are distinct (a primary-key column), two
members with equal keys are the same row. -/
theorem eq_of_mem_of_key_eq {α β : Type} (key : α → β) :
    ∀ l : List α, (l.map key).Nodup →
      ∀ x, x ∈ l → ∀ y, y ∈ l → key x = key y → x = y := by
  intro l
  induction l with
  | nil => intro _ x hx; exact absurd hx (List.not_mem_nil x)
  | cons a t ih =>
    intro hnd x hx y hy hkey
    rw [List.map_cons, List.nodup_cons] at hnd
    rcases List.mem_cons.mp hx with rfl | hx'
    · rcases List.mem_cons.mp hy with rfl | hy'
      · rfl
      · exact absurd
          (show key x ∈ t.map key by
            rw [hkey]; exact List.mem_map_of_mem key hy') hnd.1
    · rcases List.mem_cons.mp hy with rfl | hy'
      · exact absurd
          (show key y ∈ t.map key by
            rw [← hkey]; exact List.mem_map_of_mem key hx') hnd.1
      · exact ih hnd.2 x hx' y hy' hkey

/-- The row update of block creation keeps the `id` column. -/
theorem decItem_id (iid : Nat) (q : Int) (it : Item) :
    (decItem iid q it).id = it.id := by
  unfold decItem; split <;> rfl

/-- The row update of promotion keeps the `id` column. -/
theorem promoteBlock_id (bid : Nat) (b : Block) :
    (promoteBlock bid b).id = b.id := by
  unfold promoteBlock; split <;> rfl

/-- A row found by `findItem` carries the looked-up id. -/
theorem findItem_id (s : StoreState) (iid : Nat) (item : Item)
    (h : findItem s iid = some item) : item.id = iid := by
  unfold findItem at h
  have := List.find?_some h
  simpa using this

/-- A row found by `findItem` is a row of the table. -/
theorem findItem_mem (s : StoreState) (iid : Nat) (item : Item)
    (h : findItem s iid = some item) : item ∈ s.items := by
  unfold findItem at h
  exact List.mem_of_find?_eq_some h

/-- A row found by `findBlock` carries the looked-up id. -/
theorem findBlock_id (s : StoreState) (bid : Nat) (b : Block)
    (h : findBlock s bid = some b) : b.id = bid := by
  unfold findBlock at h
  have := List.find?_some h
  simpa using this

/-- Characterization of `temporarilyBlockInventory` for a present,
nonzero `itemId`: the validation guard reduces to the quantity test,
then the handler follows the availability check. -/
theorem tbi_spec (s : StoreState) (iid : Nat) (q : Int) (now : Nat)
    (hiid : iid ≠ 0) :
    temporarilyBlockInventory s (some iid) (some q) now =
      if q ≤ 0 then (.error .validationError, s)
      else
        match findItem s iid with
        | none => (.error .itemNotFound, s)
        | some item =>
          if item.quantity < q then
            (.error (.insufficientQuantity item.quantity q), s)
          else
            (.ok ⟨s.nextBlockId, q, item.quantity - q, now + hourMillis⟩,
             { items := s.items.map (decItem iid q),
               blocks := s.blocks ++
                 [⟨s.nextBlockId, iid, q, false, some (now + hourMillis)⟩],
               nextBlockId := s.nextBlockId + 1 }) := by
  simp only [temporarilyBlockInventory]
  by_cases hq : q ≤ 0
  · rw [if_pos (Or.inr hq), if_pos hq]
  · rw [if_neg (by tauto), if_neg hq]

/-- `tbi_spec` once the item row has been found: only the
availability check remains. -/
theorem tbi_spec_found (s : StoreState) (iid : Nat) (q : Int)
    (now : Nat) (item : Item) (hiid : iid ≠ 0) (hq : 0 < q)
    (hfind : findItem s iid = some item) :
    temporarilyBlockInventory s (some iid) (some q) now =
      if item.quantity < q then
        (.error (.insufficientQuantity item.quantity q), s)
      else
        (.ok ⟨s.nextBlockId, q, item.quantity - q, now + hourMillis⟩,
         { items := s.items.map (decItem iid q),
           blocks := s.blocks ++
             [⟨s.nextBlockId, iid, q, false, some (now + hourMillis)⟩],
           nextBlockId := s.nextBlockId + 1 }) := by
  rw [tbi_spec s iid q now hiid, if_neg (not_le.mpr hq), hfind]

/-- Characterization of `permanentlyBlockInventory` for a present,
nonzero `blockId`. -/
theorem pbi_spec (s : StoreState) (bid : Nat) (now : Nat)
    (hbid : bid ≠ 0) :
    permanentlyBlockInventory s (some bid) now =
      match findBlock s bid with
      | none => (.error .blockNotFound, s)
      | some block =>
        if block.isPermanent then (.error .alreadyPermanent, s)
        else
          match block.expiresAt with
          | some e =>
            if e ≤ now then (.error .blockExpired, s)
            else (.ok ⟨bid, block.quantity, block.itemId⟩,
                  { s with blocks := s.blocks.map (promoteBlock bid) })
          | none => (.ok ⟨bid, block.quantity, block.itemId⟩,
                     { s with blocks := s.blocks.map (promoteBlock bid) }) := by
  simp only [permanentlyBlockInventory]
  rw [if_neg hbid]

/-- `pbi_spec` once the block row has been found. -/
theorem pbi_spec_found (s : StoreState) (bid : Nat) (now : Nat)
    (b : Block) (hbid : bid ≠ 0) (hfind : findBlock s bid = some b) :
    permanentlyBlockInventory s (some bid) now =
      if b.isPermanent then (.error .alreadyPermanent, s)
      else
        match b.expiresAt with
        | some e =>
          if e ≤ now then (.error .blockExpired, s)
          else (.ok ⟨bid, b.quantity, b.itemId⟩,
                { s with blocks := s.blocks.map (promoteBlock bid) })
        | none => (.ok ⟨bid, b.quantity, b.itemId⟩,
                   { s with blocks := s.blocks.map (promoteBlock bid) }) := by
  rw [pbi_spec s bid now hbid, hfind]

/-- Promotion of a found, non-permanent, unexpired block succeeds and
rewrites only the block table. -/
theorem pbi_success (s : StoreState) (bid : Nat) (now : Nat) (b : Block)
    (hbid : bid ≠ 0) (hfind : findBlock s bid = some b)
    (hperm : b.isPermanent = false)
    (hexp : ∀ e, b.expiresAt = some e → now < e) :
    permanentlyBlockInventory s (some bid) now =
      (.ok ⟨bid, b.quantity, b.itemId⟩,
       { s with blocks := s.blocks.map (promoteBlock bid) }) := by
  rw [pbi_spec_found s bid now b hbid hfind, if_neg (by simp [hperm])]
  cases he : b.expiresAt with
  | none => rfl
  | some e => exact if_neg (not_le.mpr (hexp e he))

/-- Looking a block up after the promotion update finds the updated
row. -/
theorem findBlock_map_promote (s : StoreState) (bid bid' : Nat) :
    findBlock { s with blocks := s.blocks.map (promoteBlock bid) } bid' =
      (findBlock s bid').map (promoteBlock bid) := by
  show (s.blocks.map (promoteBlock bid)).find? (fun b => b.id == bid') = _
  rw [find_map_of_pred_const (promoteBlock bid) _
    (fun x => by rw [promoteBlock_id]) s.blocks]
  rfl

/-- The branch structure of the cleanup sweep, written out. -/
theorem cleanup_spec (s : StoreState) (tSel tDel : Nat) :
    cleanupExpiredBlocks s tSel tDel =
      if 0 < (selectExpiredJoined s tSel).length then
        ((selectExpiredJoined s tSel).length,
         { s with
           items := (selectExpiredJoined s tSel).foldl restoreQuantity
             s.items,
           blocks := s.blocks.filter (fun b => !isExpiredTemp tDel b) })
      else (0, s) := rfl

/-- Block creation either leaves the item table unchanged (every
error path) or, on success, applies the availability-checked
decrement. -/
theorem tbi_items_cases (s : StoreState) (itemId : Option Nat)
    (quantity : Option Int) (now : Nat) :
    (temporarilyBlockInventory s itemId quantity now).2.items =
      s.items ∨
    (∃ iid q item, itemId = some iid ∧ quantity = some q ∧
      findItem s iid = some item ∧ 0 < q ∧ q ≤ item.quantity ∧
      (temporarilyBlockInventory s itemId quantity now).2.items =
        s.items.map (decItem iid q)) := by
  cases itemId with
  | none => exact Or.inl rfl
  | some iid =>
    cases quantity with
    | none => exact Or.inl rfl
    | some q =>
      by_cases h0 : iid = 0
      · left
        simp [temporarilyBlockInventory, h0]
      · by_cases hq : q ≤ 0
        · left
          rw [tbi_spec s iid q now h0, if_pos hq]
        · cases hf : findItem s iid with
          | none =>
            left
            rw [tbi_spec s iid q now h0, if_neg hq, hf]
          | some item =>
            by_cases hlt : item.quantity < q
            · left
              rw [tbi_spec_found s iid q now item h0 (not_le.mp hq) hf,
                if_pos hlt]
            · right
              refine ⟨iid, q, item, rfl, rfl, hf, not_le.mp hq,
                not_lt.mp hlt, ?_⟩
              rw [tbi_spec_found s iid q now item h0 (not_le.mp hq) hf,
                if_neg hlt]

/-- Promotion never touches the item table, on any path. -/
theorem pbi_items_eq (s : StoreState) (blockId : Option Nat)
    (now : Nat) :
    (permanentlyBlockInventory s blockId now).2.items = s.items := by
  cases blockId with
  | none => rfl
  | some bid =>
    by_cases h0 : bid = 0
    · simp [permanentlyBlockInventory, h0]
    · cases hf : findBlock s bid with
      | none => rw [pbi_spec s bid now h0, hf]
      | some b =>
        rw [pbi_spec_found s bid now b h0 hf]
        by_cases hp : b.isPermanent
        · simp [hp]
        · simp only [Bool.not_eq_true] at hp
          cases he : b.expiresAt with
          | none => simp [hp]
          | some e => by_cases hle : e ≤ now <;> simp [hp, hle]

/-- One restore step keeps every item quantity non-negative when the
restored block quantity is non-negative. -/
theorem restore_nonneg (items : List Item) (b : Block)
    (hb : 0 ≤ b.quantity) (h : ∀ it ∈ items, 0 ≤ it.quantity) :
    ∀ it ∈ restoreQuantity items b, 0 ≤ it.quantity := by
  intro it' hit'
  rcases List.mem_map.mp hit' with ⟨it, hit, rfl⟩
  split
  · exact add_nonneg (h it hit) hb
  · exact h it hit

/-- The whole restore loop keeps every item quantity non-negative. -/
theorem foldl_restore_nonneg :
    ∀ (bs : List Block) (items : List Item),
      (∀ b ∈ bs, 0 ≤ b.quantity) → (∀ it ∈ items, 0 ≤ it.quantity) →
      ∀ it ∈ bs.foldl restoreQuantity items, 0 ≤ it.quantity := by
  intro bs
  induction bs with
  | nil => intro items _ h; simpa using h
  | cons b t ih =>
    intro items hbs h
    rw [List.foldl_cons]
    exact ih _ (fun b' hb' => hbs b' (List.mem_cons_of_mem b hb'))
      (restore_nonneg items b (hbs b (List.mem_cons_self b t)) h)

/-! ## Claims -/

/-- **C1**: the claim states that one execution of the reclaim sweep
restores quantity for exactly the set of blocks it deletes.  The code
reads the clock once for the restoring `SELECT` (`tSel = 5`) and again
for the `DELETE` (`tDel = 10`); a block expiring between the two reads
is deleted without restoration.  Here block 2 (7 units, expiry 8) is
in the store, is not selected at the first read, references an
existing item, yet the sweep deletes it (the final store holds no
blocks) while restoring only block 1 (final quantity 5, not 12) and
reporting a reclaimed count of 1 although two rows were deleted. -/
theorem reclaim_deletes_unrestored_block :
    bugBlockLate ∈ bugState.blocks ∧
    bugBlockLate ∉ selectExpiredJoined bugState 5 ∧
    itemExists bugState bugBlockLate.itemId = true ∧
    cleanupExpiredBlocks bugState 5 10 =
      (1, { items := [⟨1, 5⟩], blocks := [], nextBlockId := 3 }) := by
  decide

/-- **C2**: the claim states that for every item, quantity plus the
sum of its active block quantities is conserved by every engine
operation.  In `bugState` that total is 12 for item 1, yet one reclaim
sweep whose two clock reads are 5 and 10 leaves the total at 5: the 7
units of the block deleted without restoration are lost. -/
theorem reclaim_breaks_stock_invariant :
    itemTotal bugState 1 = 12 ∧
    itemTotal (applyOp bugState (.reclaim 5 10)) 1 = 5 := by
  decide

/-- **C3**: in a store with well-formed rows (distinct item ids as
the primary key guarantees, non-negative item quantities,
non-negative block quantities), each of the three engine operations
leaves every item quantity non-negative; in particular a decrement
that would go below zero is rejected as `InsufficientQuantity` before
being applied, with the store unchanged. -/
theorem quantity_nonneg_preserved (s : StoreState)
    (hids : (s.items.map Item.id).Nodup)
    (hitems : ∀ it ∈ s.items, 0 ≤ it.quantity)
    (hblocks : ∀ b ∈ s.blocks, 0 ≤ b.quantity) :
    (∀ op : EngineOp, ∀ it ∈ (applyOp s op).items, 0 ≤ it.quantity) ∧
    (∀ iid q now item, iid ≠ 0 → findItem s iid = some item →
      item.quantity < q →
      temporarilyBlockInventory s (some iid) (some q) now =
        (.error (.insufficientQuantity item.quantity q), s)) := by
  constructor
  · intro op
    cases op with
    | createTemp itemId quantity now =>
      show ∀ it ∈ (temporarilyBlockInventory s itemId quantity now).2.items,
        0 ≤ it.quantity
      rcases tbi_items_cases s itemId quantity now with heq |
        ⟨iid, q, item, _, _, hfind, hq, hle, heq⟩
      · rw [heq]; exact hitems
      · rw [heq]
        intro it' hit'
        rcases List.mem_map.mp hit' with ⟨it, hit, rfl⟩
        unfold decItem
        split
        case isTrue hbeq =>
          have hid : it.id = iid := by simpa using hbeq
          have hmem := findItem_mem s iid item hfind
          have hiid2 : item.id = iid := findItem_id s iid item hfind
          have heqit : it = item :=
            eq_of_mem_of_key_eq Item.id s.items hids it hit item hmem
              (by rw [hid, hiid2])
          subst heqit
          exact sub_nonneg.mpr hle
        case isFalse => exact hitems it hit
    | promote blockId now =>
      show ∀ it ∈ (permanentlyBlockInventory s blockId now).2.items,
        0 ≤ it.quantity
      rw [pbi_items_eq]
      exact hitems
    | reclaim tSel tDel =>
      show ∀ it ∈ (cleanupExpiredBlocks s tSel tDel).2.items,
        0 ≤ it.quantity
      rw [cleanup_spec]
      by_cases hlen : 0 < (selectExpiredJoined s tSel).length
      · rw [if_pos hlen]
        exact foldl_restore_nonneg _ s.items
          (fun b hb => hblocks b (List.mem_filter.mp hb).1) hitems
      · rw [if_neg hlen]
        exact hitems
  · intro iid q now item hiid hfind hlt
    have hq : 0 < q :=
      lt_of_le_of_lt (hitems item (findItem_mem s iid item hfind)) hlt
    rw [tbi_spec_found s iid q now item hiid hq hfind, if_pos hlt]

/-- Witness for **C3**: requesting 5 of an item holding 3 is rejected
as `InsufficientQuantity 3 5` with the store unchanged. -/
theorem quantity_nonneg_preserved_witness :
    temporarilyBlockInventory ⟨[⟨1, 3⟩], [], 1⟩ (some 1) (some 5) 0 =
      (.error (.insufficientQuantity 3 5), ⟨[⟨1, 3⟩], [], 1⟩) :=
  (quantity_nonneg_preserved ⟨[⟨1, 3⟩], [], 1⟩ (by decide) (by decide)
    (by decide)).2 1 5 0 ⟨1, 3⟩ (by decide) (by decide) (by decide)

/-- **C4**: for a request naming a genuine item id (present and
nonzero, as every `SERIAL` id is), block creation fails with the
validation error exactly when the requested quantity is nonpositive,
with `ItemNotFound` exactly when the item is absent, and with
`InsufficientQuantity` — reporting the available and requested
amounts — exactly when the available quantity is strictly below the
requested one; requesting exactly the available quantity succeeds
with remaining quantity 0, requesting one more fails reporting the
exact available amount, and every error leaves the store unchanged. -/
theorem create_error_taxonomy (s : StoreState) (iid : Nat) (q : Int)
    (now : Nat) (hiid : iid ≠ 0) :
    ((temporarilyBlockInventory s (some iid) (some q) now).1 =
        .error .validationError ↔ q ≤ 0) ∧
    ((temporarilyBlockInventory s (some iid) (some q) now).1 =
        .error .itemNotFound ↔ 0 < q ∧ findItem s iid = none) ∧
    ((∃ a r, (temporarilyBlockInventory s (some iid) (some q) now).1 =
        .error (.insufficientQuantity a r)) ↔
      0 < q ∧ ∃ item, findItem s iid = some item ∧ item.quantity < q) ∧
    (∀ item, findItem s iid = some item → 0 < q → item.quantity < q →
      temporarilyBlockInventory s (some iid) (some q) now =
        (.error (.insufficientQuantity item.quantity q), s)) ∧
    (∀ item, findItem s iid = some item → 0 < item.quantity →
      (temporarilyBlockInventory s (some iid) (some item.quantity) now).1 =
        .ok ⟨s.nextBlockId, item.quantity, 0, now + hourMillis⟩) ∧
    (∀ item, findItem s iid = some item → 0 ≤ item.quantity →
      temporarilyBlockInventory s (some iid) (some (item.quantity + 1)) now =
        (.error (.insufficientQuantity item.quantity (item.quantity + 1)),
         s)) ∧
    (∀ e, (temporarilyBlockInventory s (some iid) (some q) now).1 =
        .error e →
      (temporarilyBlockInventory s (some iid) (some q) now).2 = s) := by
  refine ⟨?_, ?_, ?_, ?_, ?_, ?_, ?_⟩
  · rw [tbi_spec s iid q now hiid]
    by_cases hq : q ≤ 0
    · simp [hq]
    · rw [if_neg hq]
      cases hf : findItem s iid with
      | none => simp [hq]
      | some item =>
        by_cases hlt : item.quantity < q <;> simp [hlt, hq]
  · rw [tbi_spec s iid q now hiid]
    by_cases hq : q ≤ 0
    · simp [hq, not_lt.mpr hq]
    · rw [if_neg hq]
      cases hf : findItem s iid with
      | none => simp [not_le.mp hq]
      | some item =>
        by_cases hlt : item.quantity < q <;> simp [hlt]
  · rw [tbi_spec s iid q now hiid]
    by_cases hq : q ≤ 0
    · simp [hq]
    · rw [if_neg hq]
      cases hf : findItem s iid with
      | none => simp
      | some item =>
        by_cases hlt : item.quantity < q
        · simp only [if_pos hlt]
          constructor
          · intro _
            exact ⟨not_le.mp hq, item, rfl, hlt⟩
          · intro _
            exact ⟨item.quantity, q, rfl⟩
        · simp only [if_neg hlt]
          constructor
          · rintro ⟨a, r, h⟩
            exact absurd h (by simp)
          · rintro ⟨_, item', hitem', hlt'⟩
            rw [Option.some.injEq] at hitem'
            exact absurd (hitem' ▸ hlt') hlt
  · intro item hf hq hlt
    rw [tbi_spec_found s iid q now item hiid hq hf, if_pos hlt]
  · intro item hf hq0
    rw [tbi_spec_found s iid item.quantity now item hiid hq0 hf,
      if_neg (lt_irrefl item.quantity)]
    simp
  · intro item hf hq0
    rw [tbi_spec_found s iid (item.quantity + 1) now item hiid
      (by omega) hf, if_pos (by omega)]
  · intro e
    rw [tbi_spec s iid q now hiid]
    by_cases hq : q ≤ 0
    · simp [hq]
    · rw [if_neg hq]
      cases hf : findItem s iid with
      | none => simp
      | some item =>
        by_cases hlt : item.quantity < q <;> simp [hlt]

/-- Witness for **C4**: requesting 11 of an item holding 10 fails
with `InsufficientQuantity 10 11` and changes nothing. -/
theorem create_error_taxonomy_witness :
    temporarilyBlockInventory ⟨[⟨1, 10⟩], [], 1⟩ (some 1) (some 11) 0 =
      (.error (.insufficientQuantity 10 11), ⟨[⟨1, 10⟩], [], 1⟩) :=
  (create_error_taxonomy ⟨[⟨1, 10⟩], [], 1⟩ 1 11 0 (by decide)).2.2.2.1
    ⟨1, 10⟩ (by decide) (by decide) (by decide)

/-- **C5**: for an existing item with enough quantity, block creation
returns the fresh block id, the blocked quantity, the remaining
quantity (old minus requested) and the expiry instant one hour after
`now`; it decrements exactly that item by exactly the requested
amount, appends exactly one non-permanent block carrying that expiry,
and leaves every other item row as it was. -/
theorem create_success_effects (s : StoreState) (iid : Nat) (q : Int)
    (now : Nat) (item : Item) (hiid : iid ≠ 0)
    (hfind : findItem s iid = some item) (hq : 0 < q)
    (hle : q ≤ item.quantity) :
    temporarilyBlockInventory s (some iid) (some q) now =
      (.ok ⟨s.nextBlockId, q, item.quantity - q, now + hourMillis⟩,
       { items := s.items.map (decItem iid q),
         blocks := s.blocks ++
           [⟨s.nextBlockId, iid, q, false, some (now + hourMillis)⟩],
         nextBlockId := s.nextBlockId + 1 }) ∧
    findItem (temporarilyBlockInventory s (some iid) (some q) now).2 iid =
      some { item with quantity := item.quantity - q } ∧
    (∀ it ∈ s.items, it.id ≠ iid →
      it ∈ (temporarilyBlockInventory s (some iid) (some q) now).2.items) := by
  have hmain : temporarilyBlockInventory s (some iid) (some q) now =
      (.ok ⟨s.nextBlockId, q, item.quantity - q, now + hourMillis⟩,
       { items := s.items.map (decItem iid q),
         blocks := s.blocks ++
           [⟨s.nextBlockId, iid, q, false, some (now + hourMillis)⟩],
         nextBlockId := s.nextBlockId + 1 }) := by
    rw [tbi_spec_found s iid q now item hiid hq hfind,
      if_neg (not_lt.mpr hle)]
  refine ⟨hmain, ?_, ?_⟩
  · rw [hmain]
    show (s.items.map (decItem iid q)).find? (fun it => it.id == iid) = _
    rw [find_map_of_pred_const (decItem iid q) _
      (fun x => by rw [decItem_id]) s.items]
    show (findItem s iid).map (decItem iid q) = _
    rw [hfind]
    show some (decItem iid q item) = _
    unfold decItem
    rw [if_pos (by simp [findItem_id s iid item hfind])]
  · intro it hit hne
    rw [hmain]
    show it ∈ s.items.map (decItem iid q)
    have : decItem iid q it = it := by
      unfold decItem
      rw [if_neg (by simpa using hne)]
    exact this ▸ List.mem_map_of_mem (decItem iid q) hit

/-- Witness for **C5**: blocking 4 of 10 at instant 100 yields block
id 1, remaining quantity 6 and expiry 3600100, and the expected
store. -/
theorem create_success_effects_witness :
    temporarilyBlockInventory ⟨[⟨1, 10⟩], [], 1⟩ (some 1) (some 4) 100 =
      (.ok ⟨1, 4, 6, 3600100⟩,
       ⟨[⟨1, 6⟩], [⟨1, 1, 4, false, some 3600100⟩], 2⟩) := by
  rw [(create_success_effects ⟨[⟨1, 10⟩], [], 1⟩ 1 4 100 ⟨1, 10⟩
    (by decide) (by decide) (by decide) (by decide)).1]
  rfl

/-- **C6**: for a request naming a genuine block id (present and
nonzero), promotion fails with `BlockNotFound` exactly when the block
is absent, with `AlreadyPermanent` exactly when it is already
permanent, and with `BlockExpired` exactly when it is non-permanent
with an expiry at or before `now`; every error leaves the store
unchanged, and promoting the same block twice succeeds once and then
fails with `AlreadyPermanent` at any later call. -/
theorem promote_error_taxonomy (s : StoreState) (bid : Nat) (now : Nat)
    (hbid : bid ≠ 0) :
    ((permanentlyBlockInventory s (some bid) now).1 =
        .error .blockNotFound ↔ findBlock s bid = none) ∧
    ((permanentlyBlockInventory s (some bid) now).1 =
        .error .alreadyPermanent ↔
      ∃ b, findBlock s bid = some b ∧ b.isPermanent = true) ∧
    ((permanentlyBlockInventory s (some bid) now).1 =
        .error .blockExpired ↔
      ∃ b e, findBlock s bid = some b ∧ b.isPermanent = false ∧
        b.expiresAt = some e ∧ e ≤ now) ∧
    (∀ e, (permanentlyBlockInventory s (some bid) now).1 = .error e →
      (permanentlyBlockInventory s (some bid) now).2 = s) ∧
    (∀ b, findBlock s bid = some b → b.isPermanent = false →
      (∀ e, b.expiresAt = some e → now < e) →
      (permanentlyBlockInventory s (some bid) now).1 =
        .ok ⟨bid, b.quantity, b.itemId⟩ ∧
      ∀ now2,
        (permanentlyBlockInventory
          (permanentlyBlockInventory s (some bid) now).2
          (some bid) now2).1 = .error .alreadyPermanent) := by
  refine ⟨?_, ?_, ?_, ?_, ?_⟩
  · cases hf : findBlock s bid with
    | none => rw [pbi_spec s bid now hbid, hf]; simp
    | some b =>
      rw [pbi_spec_found s bid now b hbid hf]
      by_cases hp : b.isPermanent
      · simp [hp, hf]
      · simp only [Bool.not_eq_true] at hp
        cases he : b.expiresAt with
        | none => simp [hp, hf, he]
        | some e => by_cases hle : e ≤ now <;> simp [hp, hf, he, hle]
  · cases hf : findBlock s bid with
    | none => rw [pbi_spec s bid now hbid, hf]; simp
    | some b =>
      rw [pbi_spec_found s bid now b hbid hf]
      by_cases hp : b.isPermanent
      · simp [hp, hf]
      · simp only [Bool.not_eq_true] at hp
        cases he : b.expiresAt with
        | none => simp [hp, hf, he]
        | some e => by_cases hle : e ≤ now <;> simp [hp, hf, he, hle]
  · cases hf : findBlock s bid with
    | none => rw [pbi_spec s bid now hbid, hf]; simp
    | some b =>
      rw [pbi_spec_found s bid now b hbid hf]
      by_cases hp : b.isPermanent
      · simp [hp, hf]
      · simp only [Bool.not_eq_true] at hp
        cases he : b.expiresAt with
        | none => simp [hp, hf, he]
        | some e => by_cases hle : e ≤ now <;> simp [hp, hf, he, hle]
  · intro e
    cases hf : findBlock s bid with
    | none => rw [pbi_spec s bid now hbid, hf]; simp
    | some b =>
      rw [pbi_spec_found s bid now b hbid hf]
      by_cases hp : b.isPermanent
      · simp [hp]
      · simp only [Bool.not_eq_true] at hp
        cases he : b.expiresAt with
        | none => simp [hp, he]
        | some e2 => by_cases hle : e2 ≤ now <;> simp [hp, he, hle]
  · intro b hfind hperm hexp
    have hmain := pbi_success s bid now b hbid hfind hperm hexp
    refine ⟨by rw [hmain], ?_⟩
    intro now2
    have hfind2 : findBlock (permanentlyBlockInventory s (some bid) now).2
        bid = some { b with isPermanent := true, expiresAt := none } := by
      rw [hmain]
      rw [findBlock_map_promote s bid bid, hfind, Option.map_some']
      unfold promoteBlock
      rw [if_pos (by simp [findBlock_id s bid b hfind])]
    rw [pbi_spec_found _ bid now2 _ hbid hfind2, if_pos rfl]

/-- Witness for **C6**: promoting block 2 (non-permanent, expiry 100)
at instant 50 succeeds; promoting it again at instant 60 fails with
`AlreadyPermanent`. -/
theorem promote_error_taxonomy_witness :
    (permanentlyBlockInventory
      ⟨[⟨1, 10⟩], [⟨2, 1, 5, false, some 100⟩], 3⟩ (some 2) 50).1 =
      .ok ⟨2, 5, 1⟩ ∧
    (permanentlyBlockInventory
      (permanentlyBlockInventory
        ⟨[⟨1, 10⟩], [⟨2, 1, 5, false, some 100⟩], 3⟩ (some 2) 50).2
      (some 2) 60).1 = .error .alreadyPermanent := by
  have h := (promote_error_taxonomy
      ⟨[⟨1, 10⟩], [⟨2, 1, 5, false, some 100⟩], 3⟩ 2 50 (by decide)).2.2.2.2
    ⟨2, 1, 5, false, some 100⟩ (by decide) (by decide)
    (by intro e he; injection he with h2; omega)
  exact ⟨h.1, h.2 60⟩

/-- **C7**: a block whose expiry equals the current instant exactly
is already expired for both operations: promotion refuses it with
`BlockExpired` and changes nothing, and the reclaim sweep selects it
and deletes it. -/
theorem expiry_boundary_inclusive (s : StoreState) (now : Nat) :
    (∀ bid b, bid ≠ 0 → findBlock s bid = some b →
      b.isPermanent = false → b.expiresAt = some now →
      permanentlyBlockInventory s (some bid) now =
        (.error .blockExpired, s)) ∧
    (∀ b ∈ s.blocks, b.isPermanent = false → b.expiresAt = some now →
      itemExists s b.itemId = true →
      b ∈ selectExpiredJoined s now ∧
      b ∉ (cleanupExpiredBlocks s now now).2.blocks) := by
  constructor
  · intro bid b hbid hfind hperm hexp
    rw [pbi_spec_found s bid now b hbid hfind, if_neg (by simp [hperm]),
      hexp]
    exact if_pos (le_refl now)
  · intro b hb hperm hexp hex
    have hmem : b ∈ selectExpiredJoined s now :=
      List.mem_filter.mpr ⟨hb, by simp [isExpiredTemp, hperm, hexp, hex]⟩
    refine ⟨hmem, ?_⟩
    intro hcontra
    rw [cleanup_spec s now now,
      if_pos (List.length_pos.mpr (List.ne_nil_of_mem hmem))] at hcontra
    have := (List.mem_filter.mp hcontra).2
    rw [show isExpiredTemp now b = true by
      simp [isExpiredTemp, hperm, hexp]] at this
    exact absurd this (by decide)

/-- Witness for **C7**: block 3 with expiry exactly 50 is refused by
promotion at instant 50 and removed by a sweep at instant 50. -/
theorem expiry_boundary_inclusive_witness :
    permanentlyBlockInventory
      ⟨[⟨1, 10⟩], [⟨3, 1, 2, false, some 50⟩], 4⟩ (some 3) 50 =
      (.error .blockExpired, ⟨[⟨1, 10⟩], [⟨3, 1, 2, false, some 50⟩], 4⟩) ∧
    (⟨3, 1, 2, false, some 50⟩ : Block) ∉
      (cleanupExpiredBlocks
        ⟨[⟨1, 10⟩], [⟨3, 1, 2, false, some 50⟩], 4⟩ 50 50).2.blocks :=
  ⟨(expiry_boundary_inclusive
      ⟨[⟨1, 10⟩], [⟨3, 1, 2, false, some 50⟩], 4⟩ 50).1 3
      ⟨3, 1, 2, false, some 50⟩ (by decide) (by decide) (by decide) rfl,
   ((expiry_boundary_inclusive
      ⟨[⟨1, 10⟩], [⟨3, 1, 2, false, some 50⟩], 4⟩ 50).2
      ⟨3, 1, 2, false, some 50⟩ (by decide) (by decide) rfl (by decide)).2⟩

/-- **C8**: promoting a found, non-permanent, unexpired block returns
its quantity and owning item id, flips only that block to permanent
with its expiry cleared and its other fields kept, and leaves the item
table, the id sequence, and every other block row unchanged. -/
theorem promote_success_frame (s : StoreState) (bid : Nat) (now : Nat)
    (b : Block) (hbid : bid ≠ 0) (hfind : findBlock s bid = some b)
    (hperm : b.isPermanent = false)
    (hexp : ∀ e, b.expiresAt = some e → now < e) :
    (permanentlyBlockInventory s (some bid) now).1 =
      .ok ⟨bid, b.quantity, b.itemId⟩ ∧
    findBlock (permanentlyBlockInventory s (some bid) now).2 bid =
      some { b with isPermanent := true, expiresAt := none } ∧
    (permanentlyBlockInventory s (some bid) now).2.items = s.items ∧
    (permanentlyBlockInventory s (some bid) now).2.nextBlockId =
      s.nextBlockId ∧
    (∀ b' ∈ s.blocks, b'.id ≠ bid →
      b' ∈ (permanentlyBlockInventory s (some bid) now).2.blocks) := by
  have hmain := pbi_success s bid now b hbid hfind hperm hexp
  refine ⟨by rw [hmain], ?_, by rw [hmain], by rw [hmain], ?_⟩
  · rw [hmain, findBlock_map_promote s bid bid, hfind, Option.map_some']
    unfold promoteBlock
    rw [if_pos (by simp [findBlock_id s bid b hfind])]
  · intro b' hb' hne
    rw [hmain]
    show b' ∈ s.blocks.map (promoteBlock bid)
    have hkeep : promoteBlock bid b' = b' := by
      unfold promoteBlock
      rw [if_neg (by simpa using hne)]
    exact hkeep ▸ List.mem_map_of_mem (promoteBlock bid) hb'

/-- Witness for **C8**: promoting block 2 of a two-block store at
instant 50 touches only block 2. -/
theorem promote_success_frame_witness :
    (permanentlyBlockInventory
      ⟨[⟨1, 10⟩], [⟨2, 1, 5, false, some 100⟩, ⟨6, 1, 3, false, some 40⟩],
       7⟩ (some 2) 50).1 = .ok ⟨2, 5, 1⟩ ∧
    findBlock (permanentlyBlockInventory
      ⟨[⟨1, 10⟩], [⟨2, 1, 5, false, some 100⟩, ⟨6, 1, 3, false, some 40⟩],
       7⟩ (some 2) 50).2 2 = some ⟨2, 1, 5, true, none⟩ := by
  have h := promote_success_frame
    ⟨[⟨1, 10⟩], [⟨2, 1, 5, false, some 100⟩, ⟨6, 1, 3, false, some 40⟩], 7⟩
    2 50 ⟨2, 1, 5, false, some 100⟩ (by decide) (by decide) (by decide)
    (by intro e he; injection he with h2; omega)
  exact ⟨h.1, h.2.1⟩

/-- **C9**: in a store whose blocks are all permanent, the reclaim
sweep selects nothing, reports a reclaimed count of 0, and leaves the
store (every item quantity and every block row) unchanged, whatever
its two clock reads are. -/
theorem reclaim_skips_permanent (s : StoreState)
    (h : ∀ b ∈ s.blocks, b.isPermanent = true) (tSel tDel : Nat) :
    selectExpiredJoined s tSel = [] ∧
    cleanupExpiredBlocks s tSel tDel = (0, s) := by
  have hsel : selectExpiredJoined s tSel = [] := by
    rw [selectExpiredJoined, List.filter_eq_nil_iff]
    intro b hb
    simp [isExpiredTemp, h b hb]
  exact ⟨hsel, by simp [cleanupExpiredBlocks, hsel]⟩

/-- Witness for **C9** at a concrete store holding one permanent
block. -/
theorem reclaim_skips_permanent_witness :
    selectExpiredJoined ⟨[⟨1, 15⟩], [⟨7, 1, 5, true, none⟩], 8⟩ 999999 = [] ∧
    cleanupExpiredBlocks ⟨[⟨1, 15⟩], [⟨7, 1, 5, true, none⟩], 8⟩ 999999 1000000 =
      (0, ⟨[⟨1, 15⟩], [⟨7, 1, 5, true, none⟩], 8⟩) :=
  reclaim_skips_permanent _ (by decide) 999999 1000000

/-- **C10**: a promote request whose `blockId` is absent or falsy
(`0`) fails with the 400 validation error "BlockId is required", an
error distinct from every kind of the promote taxonomy, and the store
is returned unchanged. -/
theorem promote_missing_blockId_validation (s : StoreState) (now : Nat) :
    permanentlyBlockInventory s none now = (.error .validationError, s) ∧
    permanentlyBlockInventory s (some 0) now = (.error .validationError, s) ∧
    PromoteError.validationError ≠ .blockNotFound ∧
    PromoteError.validationError ≠ .alreadyPermanent ∧
    PromoteError.validationError ≠ .blockExpired :=
  ⟨rfl, rfl, by decide, by decide, by decide⟩

/-! ## Conservation of stock

The sweep of C1/C2 loses stock only through its second clock read: the
theorems below show that block creation, promotion, and a sweep whose
two clock reads coincide all conserve, for every item, the ledger
quantity plus the quantities of its active blocks. -/

/-- Folding quantity additions is summing the mapped quantities. -/
theorem foldl_add_quantity (l : List Block) :
    ∀ init : Int,
      l.foldl (fun acc b => acc + b.quantity) init =
        init + (l.map Block.quantity).sum := by
  induction l with
  | nil => intro init; simp
  | cons b t ih =>
    intro init
    rw [List.foldl_cons, ih, List.map_cons, List.sum_cons]
    ring

/-- `activeBlockSum` as a mapped sum. -/
theorem activeBlockSum_eq (s : StoreState) (iid : Nat) :
    activeBlockSum s iid = blockSumFor s.blocks iid := by
  unfold activeBlockSum blockSumFor
  rw [foldl_add_quantity]
  ring

/-- `itemTotal` split into its two sums. -/
theorem itemTotal_eq (s : StoreState) (iid : Nat) :
    itemTotal s iid = qtyOf s.items iid + blockSumFor s.blocks iid := by
  unfold itemTotal qtyOf findItem
  rw [activeBlockSum_eq]

theorem blockSumFor_nil (iid : Nat) : blockSumFor [] iid = 0 := rfl

theorem blockSumFor_cons (b : Block) (t : List Block) (iid : Nat) :
    blockSumFor (b :: t) iid =
      (if b.itemId == iid then b.quantity else 0) + blockSumFor t iid := by
  unfold blockSumFor
  rw [List.filter_cons]
  by_cases h : (b.itemId == iid) = true
  · rw [if_pos h, if_pos h, List.map_cons, List.sum_cons]
  · rw [if_neg h, if_neg h, zero_add]

theorem blockSumFor_append (l1 l2 : List Block) (iid : Nat) :
    blockSumFor (l1 ++ l2) iid =
      blockSumFor l1 iid + blockSumFor l2 iid := by
  unfold blockSumFor
  rw [List.filter_append, List.map_append, List.sum_append]

/-- Splitting the per-item block sum along any predicate. -/
theorem blockSumFor_filter_split (l : List Block) (p : Block → Bool)
    (iid : Nat) :
    blockSumFor l iid =
      blockSumFor (l.filter (fun b => !p b)) iid +
        blockSumFor (l.filter p) iid := by
  induction l with
  | nil => rfl
  | cons b t ih =>
    rw [blockSumFor_cons, List.filter_cons, List.filter_cons]
    by_cases h : p b = true
    · have hnot : ¬((!p b) = true) := by simp [h]
      rw [if_neg hnot, if_pos h, blockSumFor_cons, ih]
      ring
    · have hyes : (!p b) = true := by simp [h]
      rw [if_pos hyes, if_neg h, blockSumFor_cons, ih]
      ring

theorem blockSumFor_zero_of_no_ref (l : List Block) (iid : Nat)
    (h : ∀ b ∈ l, b.itemId ≠ iid) : blockSumFor l iid = 0 := by
  unfold blockSumFor
  rw [List.filter_eq_nil_iff.mpr (fun b hb => by simpa using h b hb)]
  rfl

/-- Looking an item up after one restore step finds the updated row. -/
theorem find_restore (items : List Item) (b : Block) (iid : Nat) :
    (restoreQuantity items b).find? (fun it => it.id == iid) =
      (items.find? (fun it => it.id == iid)).map
        (fun it => if it.id == b.itemId then
          { it with quantity := it.quantity + b.quantity } else it) := by
  unfold restoreQuantity
  exact find_map_of_pred_const _ _ (fun x => by split <;> rfl) items

/-- A restore step does not create or delete item rows. -/
theorem isSome_restore (items : List Item) (b : Block) (iid : Nat) :
    ((restoreQuantity items b).find? (fun it => it.id == iid)).isSome =
      (items.find? (fun it => it.id == iid)).isSome := by
  rw [find_restore]
  cases items.find? (fun it => it.id == iid) <;> rfl

/-- Effect of one restore step on one ledger quantity. -/
theorem qtyOf_restore (items : List Item) (b : Block) (iid : Nat) :
    qtyOf (restoreQuantity items b) iid =
      qtyOf items iid +
        (if ((items.find? (fun it => it.id == iid)).isSome &&
            (b.itemId == iid)) then b.quantity else 0) := by
  unfold qtyOf
  rw [find_restore]
  cases hf : items.find? (fun it => it.id == iid) with
  | none => simp
  | some it =>
    have hid : it.id = iid := by simpa using List.find?_some hf
    simp only [Option.map_some']
    by_cases h : b.itemId = iid
    · simp [hid, h]
    · have h1 : (it.id == b.itemId) = false := by simp [hid]; omega
      have h2 : (b.itemId == iid) = false := by simp [h]
      simp [h1, h2]

/-- Effect of the whole restore loop on one ledger quantity: the
per-item sum of the restored blocks is added, when the item row
exists. -/
theorem foldl_restore_qtyOf (iid : Nat) :
    ∀ (bs : List Block) (items : List Item),
      qtyOf (bs.foldl restoreQuantity items) iid =
        qtyOf items iid +
          (if (items.find? (fun it => it.id == iid)).isSome then
            blockSumFor bs iid else 0) := by
  intro bs
  induction bs with
  | nil =>
    intro items
    by_cases h : (items.find? (fun it => it.id == iid)).isSome = true <;>
      simp [h, blockSumFor_nil]
  | cons b t ih =>
    intro items
    rw [List.foldl_cons, ih (restoreQuantity items b), qtyOf_restore,
      isSome_restore, blockSumFor_cons]
    by_cases hs : (items.find? (fun it => it.id == iid)).isSome = true
    · rw [if_pos hs, if_pos hs]
      by_cases hb : (b.itemId == iid) = true
      · rw [if_pos (by simp [hs, hb]), if_pos hb]
        ring
      · rw [if_neg (by simp [hb]), if_neg hb]
        ring
    · have hs' : (items.find? (fun it => it.id == iid)).isSome = false := by
        simpa using hs
      rw [if_neg hs, if_neg hs, if_neg (by simp [hs'])]
      ring

/-- With referential integrity, the deletion condition of the sweep,
evaluated at the selection instant, picks exactly the selected
blocks. -/
theorem delete_matches_select (s : StoreState) (t : Nat)
    (hFK : ∀ b ∈ s.blocks, itemExists s b.itemId = true) :
    s.blocks.filter (fun b => isExpiredTemp t b) =
      selectExpiredJoined s t := by
  unfold selectExpiredJoined
  apply List.filter_congr
  intro b hb
  rw [hFK b hb, Bool.and_true]

/-- Block creation either leaves the store unchanged (every error
path) or performs the availability-checked decrement and insert. -/
theorem tbi_cases (s : StoreState) (itemId : Option Nat)
    (quantity : Option Int) (now : Nat) :
    (temporarilyBlockInventory s itemId quantity now).2 = s ∨
    ∃ iid q item, itemId = some iid ∧ quantity = some q ∧ iid ≠ 0 ∧
      findItem s iid = some item ∧ 0 < q ∧ q ≤ item.quantity ∧
      (temporarilyBlockInventory s itemId quantity now).2 =
        { items := s.items.map (decItem iid q),
          blocks := s.blocks ++
            [⟨s.nextBlockId, iid, q, false, some (now + hourMillis)⟩],
          nextBlockId := s.nextBlockId + 1 } := by
  cases itemId with
  | none => exact Or.inl rfl
  | some iid =>
    cases quantity with
    | none => exact Or.inl rfl
    | some q =>
      by_cases h0 : iid = 0
      · left
        simp [temporarilyBlockInventory, h0]
      · by_cases hq : q ≤ 0
        · left
          rw [tbi_spec s iid q now h0, if_pos hq]
        · cases hf : findItem s iid with
          | none =>
            left
            rw [tbi_spec s iid q now h0, if_neg hq, hf]
          | some item =>
            by_cases hlt : item.quantity < q
            · left
              rw [tbi_spec_found s iid q now item h0 (not_le.mp hq) hf,
                if_pos hlt]
            · right
              exact ⟨iid, q, item, rfl, rfl, h0, hf, not_le.mp hq,
                not_lt.mp hlt,
                by rw [tbi_spec_found s iid q now item h0 (not_le.mp hq)
                  hf, if_neg hlt]⟩

/-- The decrement of block creation, seen through one ledger
quantity. -/
theorem qtyOf_decItem (items : List Item) (tid : Nat) (q : Int)
    (iid : Nat) :
    qtyOf (items.map (decItem tid q)) iid =
      qtyOf items iid -
        (if ((items.find? (fun it => it.id == iid)).isSome &&
            (tid == iid)) then q else 0) := by
  unfold qtyOf
  rw [find_map_of_pred_const (decItem tid q) _
    (fun x => by rw [decItem_id]) items]
  cases hf : items.find? (fun it => it.id == iid) with
  | none => simp
  | some it =>
    have hid : it.id = iid := by simpa using List.find?_some hf
    simp only [Option.map_some']
    unfold decItem
    by_cases h : tid = iid
    · simp [hid, h]
    · have h1 : (it.id == tid) = false := by simp [hid]; omega
      have h2 : (tid == iid) = false := by simp [h]
      simp [h1, h2]

/-- Block creation conserves, for every item, the ledger quantity
plus the per-item sum of block quantities. -/
theorem create_preserves_itemTotal (s : StoreState)
    (itemId : Option Nat) (quantity : Option Int) (now iid : Nat) :
    itemTotal (applyOp s (.createTemp itemId quantity now)) iid =
      itemTotal s iid := by
  show itemTotal (temporarilyBlockInventory s itemId quantity now).2 iid =
    itemTotal s iid
  rcases tbi_cases s itemId quantity now with heq |
    ⟨tid, q, item, _, _, htid, hfind, hq, hle, heq⟩
  · rw [heq]
  · rw [heq, itemTotal_eq, itemTotal_eq]
    show qtyOf (s.items.map (decItem tid q)) iid +
        blockSumFor (s.blocks ++
          [⟨s.nextBlockId, tid, q, false, some (now + hourMillis)⟩]) iid =
      qtyOf s.items iid + blockSumFor s.blocks iid
    rw [blockSumFor_append, blockSumFor_cons, blockSumFor_nil,
      qtyOf_decItem]
    by_cases h : tid = iid
    · have hs : (s.items.find? (fun it => it.id == iid)).isSome = true := by
        subst h
        unfold findItem at hfind
        rw [hfind]
        rfl
      rw [if_pos (by simp [hs, h]), if_pos (by simp [h])]
      dsimp only
      ring
    · rw [if_neg (by simp [h]), if_neg (by simp [h])]
      ring

/-- Promotion either leaves the store unchanged (every error path) or
rewrites the block table with the promotion update. -/
theorem pbi_blocks_cases (s : StoreState) (blockId : Option Nat)
    (now : Nat) :
    (permanentlyBlockInventory s blockId now).2 = s ∨
    ∃ bid, blockId = some bid ∧
      (permanentlyBlockInventory s blockId now).2 =
        { s with blocks := s.blocks.map (promoteBlock bid) } := by
  cases blockId with
  | none => exact Or.inl rfl
  | some bid =>
    by_cases h0 : bid = 0
    · left
      simp [permanentlyBlockInventory, h0]
    · cases hf : findBlock s bid with
      | none =>
        left
        rw [pbi_spec s bid now h0, hf]
      | some b =>
        rw [pbi_spec_found s bid now b h0 hf]
        by_cases hp : b.isPermanent
        · left
          simp [hp]
        · simp only [Bool.not_eq_true] at hp
          rw [if_neg (by simp [hp])]
          cases he : b.expiresAt with
          | none => exact Or.inr ⟨bid, rfl, rfl⟩
          | some e =>
            by_cases hle : e ≤ now
            · left
              simp [hle]
            · exact Or.inr ⟨bid, rfl, by simp [hle]⟩

/-- The promotion update changes neither owners nor quantities of
blocks. -/
theorem blockSumFor_map_promote (l : List Block) (bid iid : Nat) :
    blockSumFor (l.map (promoteBlock bid)) iid = blockSumFor l iid := by
  induction l with
  | nil => rfl
  | cons b t ih =>
    have h1 : (promoteBlock bid b).itemId = b.itemId := by
      unfold promoteBlock; split <;> rfl
    have h2 : (promoteBlock bid b).quantity = b.quantity := by
      unfold promoteBlock; split <;> rfl
    rw [List.map_cons, blockSumFor_cons, blockSumFor_cons, ih, h1, h2]

/-- Promotion conserves, for every item, the ledger quantity plus the
per-item sum of block quantities. -/
theorem promote_preserves_itemTotal (s : StoreState)
    (blockId : Option Nat) (now iid : Nat) :
    itemTotal (applyOp s (.promote blockId now)) iid = itemTotal s iid := by
  show itemTotal (permanentlyBlockInventory s blockId now).2 iid =
    itemTotal s iid
  rcases pbi_blocks_cases s blockId now with heq | ⟨bid, _, heq⟩
  · rw [heq]
  · rw [heq, itemTotal_eq, itemTotal_eq]
    show qtyOf s.items iid +
        blockSumFor (s.blocks.map (promoteBlock bid)) iid =
      qtyOf s.items iid + blockSumFor s.blocks iid
    rw [blockSumFor_map_promote]

/-- A reclaim sweep whose two clock reads coincide conserves, for
every item of a store with referential integrity, the ledger quantity
plus the per-item sum of block quantities — the conservation that the
two distinct clock reads of the shipped code break (see C1/C2). -/
theorem reclaim_single_instant_preserves_itemTotal (s : StoreState)
    (t : Nat) (hFK : ∀ b ∈ s.blocks, itemExists s b.itemId = true)
    (iid : Nat) :
    itemTotal (applyOp s (.reclaim t t)) iid = itemTotal s iid := by
  show itemTotal (cleanupExpiredBlocks s t t).2 iid = itemTotal s iid
  rw [cleanup_spec]
  by_cases hlen : 0 < (selectExpiredJoined s t).length
  · rw [if_pos hlen, itemTotal_eq, itemTotal_eq]
    show qtyOf ((selectExpiredJoined s t).foldl restoreQuantity s.items)
        iid +
        blockSumFor (s.blocks.filter (fun b => !isExpiredTemp t b)) iid =
      qtyOf s.items iid + blockSumFor s.blocks iid
    rw [foldl_restore_qtyOf, ← delete_matches_select s t hFK]
    by_cases hs : (s.items.find? (fun it => it.id == iid)).isSome = true
    · rw [if_pos hs,
        blockSumFor_filter_split s.blocks (fun b => isExpiredTemp t b)
          iid]
      ring
    · have hs' : (s.items.find? (fun it => it.id == iid)).isSome =
          false := by simpa using hs
      have hs0 : ∀ b ∈ s.blocks, b.itemId ≠ iid := by
        intro b hb hbid
        have hex := hFK b hb
        rw [hbid] at hex
        unfold itemExists findItem at hex
        rw [hex] at hs'
        exact Bool.noConfusion hs'
      rw [if_neg hs, blockSumFor_zero_of_no_ref s.blocks iid hs0,
        blockSumFor_zero_of_no_ref _ iid
          (fun b hb => hs0 b (List.mem_filter.mp hb).1)]
      ring
  · rw [if_neg hlen]

end Inventory
